import Mathlib

/-!
Verification of `pingtool.py` (a subnet ping scanner).

Shallow embedding notes.

* IPv4 addresses are modelled as their numeric value (a `Nat` below `2^32`).
  The Python code stores them as dotted-quad strings produced by
  `str(ipaddress.IPv4Address(v))`; that conversion is a bijection between
  numeric values and their string forms, so membership, duplication and
  numeric-order properties transfer unchanged.
* `subprocess.run` / the external `ping` command are modelled by an
  environment value `SubprocessResult` per address: the call either completes
  with a return code, raises `TimeoutExpired`, or raises some other exception.
* `ipaddress.IPv4Network(s, strict=False)` is modelled by `parseIPv4Network`,
  following CPython's `_parse_octet` / `_prefix_from_prefix_string` rules for
  the dotted-quad-slash-integer-prefix inputs the tool receives (dotted
  netmask forms after the slash are not modelled; they do not occur in any
  claim).  `IPv4Network.hosts()` is modelled by `hostIPs`, following CPython:
  all addresses strictly between network and broadcast for prefixes up to
  /30, both addresses for /31, the single address for /32.
* `concurrent.futures` introduces an arbitrary completion order: the loop
  `for future in as_completed(...)` consumes each submitted future exactly
  once, in an order that is some permutation of the submitted hosts.  The
  scan is therefore parameterised by a scheduler `sched`; theorems assume
  `(sched hosts).Perm hosts`.
-/

set_option maxRecDepth 40000

namespace PingTool

/-- Outcome of the `subprocess.run(["ping", ...])` call inside `ping_host`:
completion with a return code, `subprocess.TimeoutExpired`, or any other
exception reaching the `except Exception` arm. -/
inductive SubprocessResult where
  | completed (returncode : Nat)
  | timeoutExpired
  | err
deriving DecidableEq

/-- `ping_host` (pingtool.py lines 15-45): runs one ping and returns
`(ip, is_reachable)`.  A completed run is reachable iff the return code is 0;
`TimeoutExpired` and every other exception are caught and yield
`(ip, False)`. -/
def ping_host (res : SubprocessResult) (ip : Nat) (timeout : Nat) : Nat × Bool :=
  match res with
  | SubprocessResult.completed rc => (ip, rc == 0)
  | SubprocessResult.timeoutExpired => (ip, false)
  | SubprocessResult.err => (ip, false)

/-- The probe condition that `ping_host` maps to `reachable = false`:
timeout, any other exception, or a completed run with nonzero return code. -/
def isFailure : SubprocessResult → Bool
  | SubprocessResult.completed rc => rc != 0
  | SubprocessResult.timeoutExpired => true
  | SubprocessResult.err => true

/-- Splits a character list at every occurrence of `c`
(model of Python `str.split`). -/
def splitOnChar (c : Char) : List Char → List (List Char)
  | [] => [[]]
  | x :: xs =>
    match splitOnChar c xs with
    | [] => if x = c then [[], [x]] else [[x]]
    | y :: ys => if x = c then [] :: y :: ys else (x :: y) :: ys

/-- Numeric value of a decimal digit string
(model of Python `int(s, 10)` on an all-digit string). -/
def digitsToNat (l : List Char) : Nat :=
  l.foldl (fun a c => a * 10 + (c.toNat - 48)) 0

/-- One dotted-quad octet, per CPython `ipaddress._parse_octet`: nonempty,
decimal digits only, at most 3 characters, value at most 255, no leading
zero. -/
def parseOctet : List Char → Option Nat
  | [] => none
  | c :: cs =>
    if (c :: cs).all Char.isDigit then
      if (c :: cs).length ≤ 3 then
        if c = '0' ∧ cs ≠ [] then none
        else
          if digitsToNat (c :: cs) ≤ 255 then some (digitsToNat (c :: cs))
          else none
      else none
    else none

/-- A dotted-quad IPv4 address as its numeric value
(model of `ipaddress.IPv4Address(s)` parsing). -/
def parseIPv4Address (l : List Char) : Option Nat :=
  match splitOnChar '.' l with
  | [a, b, c, d] =>
    match parseOctet a, parseOctet b, parseOctet c, parseOctet d with
    | some w, some x, some y, some z => some (((w * 256 + x) * 256 + y) * 256 + z)
    | _, _, _, _ => none
  | _ => none

/-- A slash-suffix interpreted as a prefix length, per CPython
`_prefix_from_prefix_string`: decimal digits only, value at most 32. -/
def parsePrefixLen (l : List Char) : Option Nat :=
  match l with
  | [] => none
  | _ =>
    if l.all Char.isDigit then
      if digitsToNat l ≤ 32 then some (digitsToNat l) else none
    else none

/-- An IPv4 network: masked network address plus prefix length. -/
structure IPv4Net where
  netAddr : Nat
  prefixLen : Nat
deriving DecidableEq

/-- Clears the low `32 - p` bits of `addr` (the `strict=False` masking that
`IPv4Network` applies to the host part). -/
def maskKeep (addr p : Nat) : Nat :=
  addr / 2 ^ (32 - p) * 2 ^ (32 - p)

/-- `ipaddress.IPv4Network(subnet, strict=False)` on the inputs the tool
receives: `a` alone means prefix 32; `a/p` parses the address and the integer
prefix and masks the host bits; anything else fails (Python raises
`ValueError`). -/
def parseIPv4Network (s : String) : Option IPv4Net :=
  match splitOnChar '/' s.data with
  | [a] => (parseIPv4Address a).map (fun addr => ⟨addr, 32⟩)
  | [a, p] =>
    match parseIPv4Address a, parsePrefixLen p with
    | some addr, some pl => some ⟨maskKeep addr pl, pl⟩
    | _, _ => none
  | _ => none

/-- Broadcast address of a network: `netAddr + 2^(32-p) - 1`. -/
def broadcastAddr (n : IPv4Net) : Nat :=
  n.netAddr + 2 ^ (32 - n.prefixLen) - 1

/-- `network.hosts()` per CPython `ipaddress`: the single address for /32,
both addresses for /31, otherwise every address strictly between network and
broadcast.  `scan_subnet` line 64 builds exactly this list. -/
def hostIPs (n : IPv4Net) : List Nat :=
  if n.prefixLen = 32 then [n.netAddr]
  else if n.prefixLen = 31 then [n.netAddr, n.netAddr + 1]
  else (List.range (2 ^ (32 - n.prefixLen) - 2)).map (fun i => n.netAddr + 1 + i)

/-- One iteration of the `for future in as_completed(...)` loop body
(pingtool.py lines 84-92): a reachable outcome increments `pingable_count`,
an unreachable one is appended to `non_pingable`. -/
def recordOutcome (acc : Nat × List Nat) (outcome : Nat × Bool) : Nat × List Nat :=
  if outcome.2 then (acc.1 + 1, acc.2) else (acc.1, acc.2 ++ [outcome.1])

/-- The body of the `try:` block of `scan_subnet` (lines 59-99): parse the
subnet (a parse failure raises, modelled as `Except.error ()`), expand the
hosts, run `ping_host` on each in completion order `sched hosts`, and fold
the outcomes into `(pingable_count, non_pingable)`. -/
def scanTryBody (subnet : String) (env : Nat → SubprocessResult) (timeout : Nat)
    (sched : List Nat → List Nat) : Except Unit (Nat × List Nat) :=
  match parseIPv4Network subnet with
  | none => Except.error ()
  | some n =>
    Except.ok (((sched (hostIPs n)).map
      (fun ip => ping_host (env ip) ip timeout)).foldl recordOutcome (0, []))

/-- The aggregate `(pingable_count, non_pingable)` that `scan_subnet`
computes; the `except` arm (lines 101-103) yields the empty aggregate. -/
def scanAgg (subnet : String) (env : Nat → SubprocessResult) (timeout : Nat)
    (sched : List Nat → List Nat) : Nat × List Nat :=
  match scanTryBody subnet env timeout sched with
  | Except.error _ => (0, [])
  | Except.ok r => r

/-- `scan_subnet` (lines 47-103): returns the `non_pingable` list; on any
exception in the body it prints an error and returns `[]`. -/
def scan_subnet (subnet : String) (env : Nat → SubprocessResult) (timeout : Nat)
    (sched : List Nat → List Nat) : List Nat :=
  match scanTryBody subnet env timeout sched with
  | Except.error _ => []
  | Except.ok r => r.2

/-- The addresses for which `scan_subnet` submits a `ping_host` future
(lines 78-81): all expanded hosts on a successful parse, none when parsing
raised first. -/
def probesIssued (subnet : String) : List Nat :=
  match parseIPv4Network subnet with
  | none => []
  | some n => hostIPs n

/-- Whether the probe for `ip` reports reachable, given the subprocess
environment. -/
def reachableProbe (env : Nat → SubprocessResult) (timeout : Nat) (ip : Nat) : Bool :=
  (ping_host (env ip) ip timeout).2

/-- `main` (line 173) prints the unreachable list sorted by numeric address
value: `sorted(non_pingable, key=lambda x: ipaddress.IPv4Address(x))`. -/
def displayOrder (l : List Nat) : List Nat :=
  List.insertionSort (fun a b => a ≤ b) l

/-- Default `max_workers` of `scan_subnet` (line 47), also the value `main`
passes at line 158. -/
def defaultMaxWorkers : Nat := 50

/-- The worker-pool schedule: `ThreadPoolExecutor(max_workers=w)` runs at
most `w` probes simultaneously, so an execution splits the host list into
successive waves of at most `w` concurrently-running probes. -/
def chunks (w : Nat) : List Nat → List (List Nat)
  | [] => []
  | x :: xs => (x :: xs.take (w - 1)) :: chunks w (xs.drop (w - 1))
termination_by l => l.length
decreasing_by simp [List.length_drop]; omega

/-- The waves of concurrently-executing probes in a scan with concurrency
ceiling `w` (model of the `ThreadPoolExecutor` at lines 76-81). -/
def scanRounds (subnet : String) (w : Nat) : List (List Nat) :=
  match parseIPv4Network subnet with
  | none => []
  | some n => chunks w (hostIPs n)

/-- Concrete test fixtures. -/
def ex30 : String := "10.0.0.0/30"

def ex24 : String := "192.168.1.0/24"

def exInvalid : String := "not-an-ip/24"

def ex33 : String := "10.0.0.0/33"

def net30 : IPv4Net := ⟨167772160, 30⟩

/-- An environment in which every ping times out (all hosts unreachable). -/
def envAllDown : Nat → SubprocessResult := fun _ => SubprocessResult.timeoutExpired

/-- An environment in which every ping exits with return code 0. -/
def envAllUp : Nat → SubprocessResult := fun _ => SubprocessResult.completed 0

/-- Completion in submission order. -/
def idSched : List Nat → List Nat := fun l => l

/-- Completion in reverse submission order. -/
def revSched : List Nat → List Nat := fun l => l.reverse

/-- `Except.error` discriminator (decidable stand-in for equality on
`Except`). -/
def isErrorB : Except Unit (Nat × List Nat) → Bool
  | Except.error _ => true
  | Except.ok _ => false

/-! ### Helper lemmas -/

lemma ping_host_fst (res : SubprocessResult) (ip t : Nat) :
    (ping_host res ip t).1 = ip := by
  cases res <;> rfl

lemma ping_host_pair (res : SubprocessResult) (ip t : Nat) :
    ping_host res ip t = (ip, (ping_host res ip t).2) := by
  cases res <;> rfl

/-- The aggregation loop counts the reachable outcomes and appends the
unreachable addresses in completion order. -/
lemma foldl_record (env : Nat → SubprocessResult) (t : Nat) (order : List Nat) :
    ∀ (c : Nat) (acc : List Nat),
      ((order.map (fun ip => ping_host (env ip) ip t)).foldl recordOutcome (c, acc)) =
        (c + order.countP (reachableProbe env t),
          acc ++ order.filter (fun ip => ! reachableProbe env t ip)) := by
  induction order with
  | nil => intro c acc; simp
  | cons ip rest ih =>
    intro c acc
    simp only [List.map_cons, List.foldl_cons]
    rw [ping_host_pair (env ip) ip t]
    show (rest.map (fun ip => ping_host (env ip) ip t)).foldl recordOutcome
        (recordOutcome (c, acc) (ip, reachableProbe env t ip)) = _
    cases hb : reachableProbe env t ip with
    | true =>
      rw [show recordOutcome (c, acc) (ip, true) = (c + 1, acc) from rfl, ih]
      simp [List.countP_cons, List.filter_cons, hb, Nat.add_assoc, Nat.add_comm 1]
    | false =>
      rw [show recordOutcome (c, acc) (ip, false) = (c, acc ++ [ip]) from rfl, ih]
      simp [List.countP_cons, List.filter_cons, hb]

/-- On a valid subnet, the scan aggregate is the reachable count and the
unreachable completion-order sublist. -/
lemma scanAgg_valid {s : String} {n : IPv4Net} (env : Nat → SubprocessResult)
    (t : Nat) (sched : List Nat → List Nat) (h : parseIPv4Network s = some n) :
    scanAgg s env t sched =
      ((sched (hostIPs n)).countP (reachableProbe env t),
        (sched (hostIPs n)).filter (fun ip => ! reachableProbe env t ip)) := by
  unfold scanAgg scanTryBody
  rw [h]
  simp [foldl_record]

lemma scan_subnet_eq_scanAgg (s : String) (env : Nat → SubprocessResult)
    (t : Nat) (sched : List Nat → List Nat) :
    scan_subnet s env t sched = (scanAgg s env t sched).2 := by
  unfold scan_subnet scanAgg
  cases scanTryBody s env t sched <;> rfl

lemma scan_subnet_valid {s : String} {n : IPv4Net} (env : Nat → SubprocessResult)
    (t : Nat) (sched : List Nat → List Nat) (h : parseIPv4Network s = some n) :
    scan_subnet s env t sched =
      (sched (hostIPs n)).filter (fun ip => ! reachableProbe env t ip) := by
  rw [scan_subnet_eq_scanAgg, scanAgg_valid env t sched h]

lemma scan_subnet_invalid {s : String} (env : Nat → SubprocessResult)
    (t : Nat) (sched : List Nat → List Nat) (h : parseIPv4Network s = none) :
    scan_subnet s env t sched = [] := by
  unfold scan_subnet scanTryBody
  rw [h]

lemma hostIPs_le30 {n : IPv4Net} (h : n.prefixLen ≤ 30) :
    hostIPs n =
      (List.range (2 ^ (32 - n.prefixLen) - 2)).map (fun i => n.netAddr + 1 + i) := by
  unfold hostIPs
  rw [if_neg (by omega), if_neg (by omega)]

lemma hostIPs_nodup (n : IPv4Net) : (hostIPs n).Nodup := by
  unfold hostIPs
  by_cases h32 : n.prefixLen = 32
  · simp [h32]
  · rw [if_neg h32]
    by_cases h31 : n.prefixLen = 31
    · simp [h31]
    · rw [if_neg h31]
      exact List.Nodup.map (fun a b hab => by omega) (List.nodup_range _)

lemma countP_add_not_filter (p : Nat → Bool) (l : List Nat) :
    l.countP p + (l.filter (fun a => ! p a)).length = l.length := by
  induction l with
  | nil => simp
  | cons a l ih =>
    cases h : p a <;>
      simp [List.countP_cons, List.filter_cons, h, ← ih] <;> omega

/-! ### Claim theorems -/

/-- C8: for every subprocess outcome, address and timeout, `ping_host` is
total and identity-preserving: it returns a pair (never raises — every
failure arm is caught inside it), and the first component of the pair is
exactly the input address, in the success branch and in every error
branch. -/
theorem ping_host_total_identity (res : SubprocessResult) (ip t : Nat) :
    (ping_host res ip t).1 = ip ∧ ∃ b, ping_host res ip t = (ip, b) :=
  ⟨ping_host_fst res ip t, (ping_host res ip t).2, ping_host_pair res ip t⟩

/-- C5: for every target and positive timeout, `ping_host` returns
`reachable = false` whenever the timeout elapses, the ping command reports
failure (nonzero return code), or any other exception occurs; and no such
condition is ever propagated to `scan_subnet` — the try-body of a scan over
a valid range always completes normally, whatever the probes do. -/
theorem ping_host_failure_modes (res : SubprocessResult) (ip t : Nat)
    (ht : 0 < t) (hf : isFailure res = true) :
    ping_host res ip t = (ip, false) ∧
    ∀ (s : String) (n : IPv4Net) (env : Nat → SubprocessResult)
      (sched : List Nat → List Nat), parseIPv4Network s = some n →
        ∃ r, scanTryBody s env t sched = Except.ok r := by
  constructor
  · cases res with
    | completed rc =>
      simp only [isFailure, bne_iff_ne, ne_eq] at hf
      simp [ping_host, hf]
    | timeoutExpired => rfl
    | err => rfl
  · intro s n env sched hp
    unfold scanTryBody
    rw [hp]
    exact ⟨_, rfl⟩

theorem ping_host_failure_modes_witness :
    ping_host SubprocessResult.timeoutExpired 167772161 1 = (167772161, false) ∧
    ∃ r, scanTryBody ex30 envAllDown 1 idSched = Except.ok r :=
  ⟨(ping_host_failure_modes SubprocessResult.timeoutExpired 167772161 1
      (by decide) (by decide)).1,
    (ping_host_failure_modes SubprocessResult.timeoutExpired 167772161 1
      (by decide) (by decide)).2 ex30 net30 envAllDown idSched (by decide)⟩

/-- C1: for every valid address range and every completion order of the
probes, the scan classifies each usable host into exactly one bucket: the
reachable count plus the length of the unreachable list equals the number
of usable hosts, the reachable count is exactly the number of hosts whose
probe succeeded, and every entry of the unreachable list has a failed
probe (so no host is counted in both buckets). -/
theorem scan_subnet_classification (s : String) (n : IPv4Net)
    (env : Nat → SubprocessResult) (t : Nat) (sched : List Nat → List Nat)
    (hp : parseIPv4Network s = some n)
    (hsched : (sched (hostIPs n)).Perm (hostIPs n)) :
    (scanAgg s env t sched).1 + ((scanAgg s env t sched).2).length
        = (hostIPs n).length ∧
    (scanAgg s env t sched).1 = (hostIPs n).countP (reachableProbe env t) ∧
    ∀ ip ∈ (scanAgg s env t sched).2, reachableProbe env t ip = false := by
  rw [scanAgg_valid env t sched hp]
  refine ⟨?_, ?_, ?_⟩
  · rw [← hsched.length_eq]
    exact countP_add_not_filter _ _
  · exact hsched.countP_eq _
  · intro ip hip
    have h := List.of_mem_filter hip
    simpa using h

theorem scan_subnet_classification_witness :
    (scanAgg ex30 envAllDown 1 idSched).1
        + ((scanAgg ex30 envAllDown 1 idSched).2).length = (hostIPs net30).length ∧
    (scanAgg ex30 envAllDown 1 idSched).1
        = (hostIPs net30).countP (reachableProbe envAllDown 1) ∧
    ∀ ip ∈ (scanAgg ex30 envAllDown 1 idSched).2,
      reachableProbe envAllDown 1 ip = false :=
  scan_subnet_classification ex30 net30 envAllDown 1 idSched (by decide) (by decide)

/-- C9: `scan_subnet` never raises: when parsing the range fails (the only
exception source in the body, every probe being total), it returns the
empty list — indistinguishable from a successful scan in which every host
is reachable, which also returns the empty list. -/
theorem scan_subnet_total_empty_on_error (s : String)
    (env : Nat → SubprocessResult) (t : Nat) (sched : List Nat → List Nat)
    (h : parseIPv4Network s = none) :
    scan_subnet s env t sched = [] ∧
    ∀ (s2 : String) (sched2 : List Nat → List Nat),
      scan_subnet s2 envAllUp t sched2 = [] := by
  constructor
  · exact scan_subnet_invalid env t sched h
  · intro s2 sched2
    cases hp : parseIPv4Network s2 with
    | none => exact scan_subnet_invalid _ _ _ hp
    | some n =>
      rw [scan_subnet_valid _ _ _ hp]
      simp [reachableProbe, envAllUp, ping_host]

theorem scan_subnet_total_empty_on_error_witness :
    scan_subnet exInvalid envAllDown 1 idSched = [] ∧
    scan_subnet ex30 envAllUp 1 idSched = [] :=
  ⟨(scan_subnet_total_empty_on_error exInvalid envAllDown 1 idSched (by decide)).1,
    (scan_subnet_total_empty_on_error exInvalid envAllDown 1 idSched (by decide)).2
      ex30 idSched⟩

/-- C10: every element of the list returned by `scan_subnet` for a valid
range belongs to that range's usable-host expansion, and no address appears
in the returned list twice. -/
theorem scan_subnet_members_nodup (s : String) (n : IPv4Net)
    (env : Nat → SubprocessResult) (t : Nat) (sched : List Nat → List Nat)
    (hp : parseIPv4Network s = some n)
    (hsched : (sched (hostIPs n)).Perm (hostIPs n)) :
    (∀ ip ∈ scan_subnet s env t sched, ip ∈ hostIPs n) ∧
    (scan_subnet s env t sched).Nodup := by
  rw [scan_subnet_valid env t sched hp]
  constructor
  · intro ip hip
    exact hsched.subset (List.mem_of_mem_filter hip)
  · exact List.Nodup.filter _ (hsched.nodup_iff.mpr (hostIPs_nodup n))

theorem scan_subnet_members_nodup_witness :
    (∀ ip ∈ scan_subnet ex30 envAllDown 1 idSched, ip ∈ hostIPs net30) ∧
    (scan_subnet ex30 envAllDown 1 idSched).Nodup :=
  scan_subnet_members_nodup ex30 net30 envAllDown 1 idSched (by decide) (by decide)

/-- C3 counterexample: the claim says an unparsable range (such as
"not-an-ip/24" or a /33 prefix) makes the scan fail with
`InvalidRangeError`.  The code has no such error: `scan_subnet` catches the
parse exception (the try-body errors internally, `isErrorB ... = true`) and
returns normally with the empty list.  The no-probes-issued half of the
claim does hold. -/
theorem invalid_range_no_exception :
    parseIPv4Network exInvalid = none ∧
    isErrorB (scanTryBody exInvalid envAllDown 1 idSched) = true ∧
    scan_subnet exInvalid envAllDown 1 idSched = [] ∧
    probesIssued exInvalid = [] ∧
    parseIPv4Network ex33 = none ∧
    scan_subnet ex33 envAllDown 1 idSched = [] ∧
    probesIssued ex33 = [] :=
  ⟨by decide, by decide, by decide, by decide, by decide, by decide, by decide⟩

/-- C3 (amended): for every input range string that cannot be parsed as an
IPv4 network, the parse error is raised inside the try-body and caught by
`scan_subnet`, which returns the empty list instead of propagating any
error; no probe is issued. -/
theorem invalid_range_caught (s : String) (env : Nat → SubprocessResult)
    (t : Nat) (sched : List Nat → List Nat) (h : parseIPv4Network s = none) :
    scanTryBody s env t sched = Except.error () ∧
    scan_subnet s env t sched = [] ∧
    probesIssued s = [] := by
  refine ⟨?_, scan_subnet_invalid env t sched h, ?_⟩
  · unfold scanTryBody
    rw [h]
  · unfold probesIssued
    rw [h]

theorem invalid_range_caught_witness :
    scanTryBody exInvalid envAllDown 1 idSched = Except.error () ∧
    scan_subnet exInvalid envAllDown 1 idSched = [] ∧
    probesIssued exInvalid = [] :=
  invalid_range_caught exInvalid envAllDown 1 idSched (by decide)

/-- C2 counterexample: the claim says the list returned by `scan_subnet` is
sorted ascending for every completion order.  It is not: `scan_subnet` only
appends in completion order and never sorts (sorting happens in `main`, for
display).  With both hosts of 10.0.0.0/30 unreachable and the probes
completing in reverse order — a legitimate completion order, being a
permutation of the hosts — the returned list is descending. -/
theorem scan_subnet_unsorted_at_reverse_order :
    (revSched (hostIPs net30)).Perm (hostIPs net30) ∧
    scan_subnet ex30 envAllDown 1 revSched = [167772162, 167772161] ∧
    ¬ List.Sorted (fun a b => a ≤ b) (scan_subnet ex30 envAllDown 1 revSched) :=
  ⟨by decide, by decide, by decide⟩

/-- C2 (amended): `scan_subnet` returns the unreachable list in probe
completion order, without sorting it; it is `main` (line 173) that sorts
the list it prints by ascending numeric address value.  That displayed list
is sorted for every completion order and holds exactly the addresses
`scan_subnet` returned. -/
theorem display_list_sorted (s : String) (env : Nat → SubprocessResult)
    (t : Nat) (sched : List Nat → List Nat) :
    List.Sorted (fun a b => a ≤ b) (displayOrder (scan_subnet s env t sched)) ∧
    (displayOrder (scan_subnet s env t sched)).Perm (scan_subnet s env t sched) :=
  ⟨List.sorted_insertionSort _ _, List.perm_insertionSort _ _⟩

/-- C6 counterexample: the claim says two runs with the same deterministic
probe behavior yield the same unreachable list in the same order.  The
probe environment here is one fixed deterministic function (every ping
times out), yet two runs that differ only in probe completion order — both
orders legitimate permutations of the hosts — return differently ordered
lists, because `scan_subnet` keeps completion order. -/
theorem scan_rerun_differs_at_orders :
    (idSched (hostIPs net30)).Perm (hostIPs net30) ∧
    (revSched (hostIPs net30)).Perm (hostIPs net30) ∧
    scan_subnet ex30 envAllDown 1 idSched = [167772161, 167772162] ∧
    scan_subnet ex30 envAllDown 1 revSched = [167772162, 167772161] ∧
    scan_subnet ex30 envAllDown 1 idSched ≠ scan_subnet ex30 envAllDown 1 revSched :=
  ⟨by decide, by decide, by decide, by decide, by decide⟩

/-- C6 (amended): re-running the scan with the same deterministic probe
behavior over the same valid range yields the same total, the same
reachable count, and the same multiset of unreachable addresses; the
unreachable lists are moreover identical when the two runs also share the
same completion order. -/
theorem scan_rerun_counts_agree (s : String) (n : IPv4Net)
    (env : Nat → SubprocessResult) (t : Nat)
    (sched1 sched2 : List Nat → List Nat)
    (hp : parseIPv4Network s = some n)
    (h1 : (sched1 (hostIPs n)).Perm (hostIPs n))
    (h2 : (sched2 (hostIPs n)).Perm (hostIPs n)) :
    (scanAgg s env t sched1).1 = (scanAgg s env t sched2).1 ∧
    ((scanAgg s env t sched1).2).Perm ((scanAgg s env t sched2).2) ∧
    (sched1 = sched2 → scanAgg s env t sched1 = scanAgg s env t sched2) := by
  rw [scanAgg_valid env t sched1 hp, scanAgg_valid env t sched2 hp]
  have h12 := h1.trans h2.symm
  exact ⟨h12.countP_eq _, h12.filter _, fun he => by rw [he]⟩

theorem scan_rerun_counts_agree_witness :
    (scanAgg ex30 envAllDown 1 idSched).1 = (scanAgg ex30 envAllDown 1 revSched).1 ∧
    ((scanAgg ex30 envAllDown 1 idSched).2).Perm ((scanAgg ex30 envAllDown 1 revSched).2) ∧
    (idSched = revSched →
      scanAgg ex30 envAllDown 1 idSched = scanAgg ex30 envAllDown 1 revSched) :=
  scan_rerun_counts_agree ex30 net30 envAllDown 1 idSched revSched
    (by decide) (by decide) (by decide)

/-- C4: range expansion excludes the network and broadcast addresses for
prefix lengths up to /30 (every usable host lies strictly between them, and
there are exactly `2^(32-p) - 2` of them) and keeps all addresses for /31
(both) and /32 (the single one); "192.168.1.0/24" expands to exactly 254
usable hosts, namely .1 through .254. -/
theorem usable_host_expansion (n m31 m32 : IPv4Net)
    (h30 : n.prefixLen ≤ 30) (h31 : m31.prefixLen = 31) (h32 : m32.prefixLen = 32) :
    ((∀ ip ∈ hostIPs n, n.netAddr < ip ∧ ip < broadcastAddr n) ∧
      (hostIPs n).length = 2 ^ (32 - n.prefixLen) - 2) ∧
    hostIPs m31 = [m31.netAddr, m31.netAddr + 1] ∧
    hostIPs m32 = [m32.netAddr] ∧
    parseIPv4Network ex24 = some ⟨3232235776, 24⟩ ∧
    (hostIPs ⟨3232235776, 24⟩).length = 254 ∧
    hostIPs ⟨3232235776, 24⟩ = (List.range 254).map (fun i => 3232235776 + 1 + i) := by
  have hpow : 4 ≤ 2 ^ (32 - n.prefixLen) := by
    calc (4 : Nat) = 2 ^ 2 := rfl
    _ ≤ 2 ^ (32 - n.prefixLen) := Nat.pow_le_pow_right (by norm_num) (by omega)
  refine ⟨⟨?_, ?_⟩, ?_, ?_, by decide, by decide, by decide⟩
  · intro ip hip
    rw [hostIPs_le30 h30] at hip
    rcases List.mem_map.mp hip with ⟨i, hi, rfl⟩
    have hi2 := List.mem_range.mp hi
    simp only [broadcastAddr]
    omega
  · rw [hostIPs_le30 h30]
    simp
  · unfold hostIPs
    rw [if_neg (by omega), if_pos h31]
  · unfold hostIPs
    rw [if_pos h32]

theorem usable_host_expansion_witness :
    (∀ ip ∈ hostIPs net30, net30.netAddr < ip ∧ ip < broadcastAddr net30) ∧
    hostIPs ⟨167772160, 31⟩ = [167772160, 167772161] ∧
    hostIPs ⟨167772160, 32⟩ = [167772160] ∧
    (hostIPs ⟨3232235776, 24⟩).length = 254 := by
  have h := usable_host_expansion net30 ⟨167772160, 31⟩ ⟨167772160, 32⟩
    (by decide) (by decide) (by decide)
  exact ⟨h.1.1, h.2.1, h.2.2.1, h.2.2.2.2.1⟩

lemma chunks_cons (w : Nat) (x : Nat) (xs : List Nat) :
    chunks w (x :: xs) = (x :: xs.take (w - 1)) :: chunks w (xs.drop (w - 1)) := by
  simp [chunks]

lemma chunks_join_aux (w : Nat) :
    ∀ (fuel : Nat) (l : List Nat), l.length ≤ fuel → (chunks w l).flatten = l := by
  intro fuel
  induction fuel with
  | zero =>
    intro l hl
    have hnil : l = [] := List.eq_nil_of_length_eq_zero (Nat.le_zero.mp hl)
    subst hnil
    simp [chunks]
  | succ f ih =>
    intro l hl
    cases l with
    | nil => simp [chunks]
    | cons x xs =>
      have hrec := ih (xs.drop (w - 1)) (by simp at hl ⊢; omega)
      rw [chunks_cons, List.flatten_cons, hrec, List.cons_append,
        List.take_append_drop]

lemma chunks_join (w : Nat) (l : List Nat) : (chunks w l).flatten = l :=
  chunks_join_aux w l.length l le_rfl

lemma chunks_sizes_aux (w : Nat) (hw : 0 < w) :
    ∀ (fuel : Nat) (l : List Nat), l.length ≤ fuel →
      ∀ c ∈ chunks w l, c.length ≤ w := by
  intro fuel
  induction fuel with
  | zero =>
    intro l hl c hc
    have hnil : l = [] := List.eq_nil_of_length_eq_zero (Nat.le_zero.mp hl)
    subst hnil
    simp [chunks] at hc
  | succ f ih =>
    intro l hl c hc
    cases l with
    | nil => simp [chunks] at hc
    | cons x xs =>
      rw [chunks_cons] at hc
      rcases List.mem_cons.mp hc with hc | hc
      · subst hc
        simp only [List.length_cons, List.length_take]
        omega
      · exact ih (xs.drop (w - 1)) (by simp at hl ⊢; omega) c hc

/-- C7: the scan executes its probes through a bounded worker pool — a
`ThreadPoolExecutor` whose `max_workers` is the configured concurrency
ceiling (default 50) — and not through unbounded fan-out.  In the pool
model, every wave of simultaneously executing probes for a range of at
least `w` hosts has at most `w` probes, and the waves together probe
exactly the expanded host list. -/
theorem bounded_worker_pool (s : String) (w : Nat) (n : IPv4Net)
    (hw : 0 < w) (hp : parseIPv4Network s = some n)
    (hsize : w ≤ (hostIPs n).length) :
    defaultMaxWorkers = 50 ∧
    (∀ r ∈ scanRounds s w, r.length ≤ w) ∧
    (scanRounds s w).flatten = hostIPs n := by
  refine ⟨rfl, ?_, ?_⟩
  · intro r hr
    unfold scanRounds at hr
    rw [hp] at hr
    exact chunks_sizes_aux w hw (hostIPs n).length (hostIPs n) le_rfl r hr
  · unfold scanRounds
    rw [hp]
    exact chunks_join w (hostIPs n)

theorem bounded_worker_pool_witness :
    defaultMaxWorkers = 50 ∧
    (∀ r ∈ scanRounds ex30 2, r.length ≤ 2) ∧
    (scanRounds ex30 2).flatten = hostIPs net30 :=
  bounded_worker_pool ex30 2 net30 (by decide) (by decide) (by decide)

end PingTool
